import Mathlib

/-!
A shallow embedding of the core of the prompt-tester repository
(medical-coding evaluation harness): the scoring engine (src/src/utils.ts,
calculateScore), the identifier extractor (extractMRN), the case repository
merge (src/src/context/DataContext.tsx, ingestAuditEntries / ingestRawNote /
addCase), the test-run ledger (addTestResult plus the DELETE endpoint in
src/api/results/[id].ts), the by-prompt and by-case aggregations
(src/src/pages/CaseList.tsx, promptStats / keyResults), prompt naming
(applyImprovedPrompt), and aggregate statistics (calculateAggregateStats).

JavaScript numbers are modelled as rationals, JS strings as Lean strings
(character lists), JS Sets as first-occurrence-deduplicated lists, and JS
object literals passed to merge sites as records in which the presence of
each key is explicit.
-/

namespace PromptTester

/-- Whitespace as matched by the regex class backslash-s and by
String.prototype.trim, restricted to the ASCII range (the source texts and
codes in play are ASCII). -/
def isSpaceChar (c : Char) : Bool :=
  c = ' ' || c = '\t' || c = '\n' || c = '\r' || c = '\x0b' || c = '\x0c'

/-- Word characters for the regex boundary assertion: ASCII letters, digits
and underscore. -/
def isWordChar (c : Char) : Bool :=
  c.isAlpha || c.isDigit || c = '_'

/-- Model of the JS idiom `s.toLowerCase().trim()` used by calculateScore:
lower-case every character, then strip leading and trailing whitespace
(ASCII range). -/
def normalizeCode (s : String) : String :=
  let lowered := s.data.map Char.toLower
  String.mk (((lowered.dropWhile isSpaceChar).reverse.dropWhile isSpaceChar).reverse)

/-- First-occurrence deduplication with an accumulator of already-seen
elements: the iteration order of a JS Set built from a list. -/
def dedupFirstAux (seen : List String) : List String → List String
  | [] => []
  | x :: xs => if x ∈ seen then dedupFirstAux seen xs else x :: dedupFirstAux (x :: seen) xs

/-- Elements of `new Set(codes.map(c => c.toLowerCase().trim()))` in
insertion order. -/
def normSet (codes : List String) : List String :=
  dedupFirstAux [] (codes.map normalizeCode)

/-- GroundTruth record from src/src/types.ts. -/
structure GroundTruth where
  primary_icd : String
  secondary_icds : List String
  cpt_codes : List String
  auditor_notes : String
deriving Repr, DecidableEq

/-- CodingPrediction record from src/src/types.ts. -/
structure CodingPrediction where
  primary_icd : String
  secondary_icds : List String
  cpt_codes : List String
  reasoning : String
deriving Repr, DecidableEq

/-- Return shape of calculateScore in src/src/utils.ts. -/
structure Score where
  primary_match : Bool
  cpt_recall : ℚ
  cpt_precision : ℚ
  matched_cpts : List String
  missed_cpts : List String
  hallucinated_cpts : List String
deriving Repr, DecidableEq

/-- The Set goldCpts of calculateScore, as a deduplicated insertion-order
list. -/
def goldSetOf (gold : GroundTruth) : List String := normSet gold.cpt_codes

/-- The Set predCpts of calculateScore. -/
def predSetOf (pred : CodingPrediction) : List String := normSet pred.cpt_codes

/-- matchedCpts of calculateScore: gold codes also predicted. -/
def matchedOf (gold : GroundTruth) (pred : CodingPrediction) : List String :=
  (goldSetOf gold).filter (fun c => decide (c ∈ predSetOf pred))

/-- missedCpts of calculateScore: gold codes not predicted. -/
def missedOf (gold : GroundTruth) (pred : CodingPrediction) : List String :=
  (goldSetOf gold).filter (fun c => decide (c ∉ predSetOf pred))

/-- hallucinatedCpts of calculateScore: predicted codes not in gold. -/
def hallucinatedOf (gold : GroundTruth) (pred : CodingPrediction) : List String :=
  (predSetOf pred).filter (fun c => decide (c ∉ goldSetOf gold))

/-- calculateScore from src/src/utils.ts lines 8-31, with its local
bindings lifted to the definitions above. -/
def calculateScore (gold : GroundTruth) (pred : CodingPrediction) : Score :=
  { primary_match := normalizeCode gold.primary_icd == normalizeCode pred.primary_icd
    cpt_recall :=
      if (goldSetOf gold).length > 0 then
        ((matchedOf gold pred).length : ℚ) / ((goldSetOf gold).length : ℚ)
      else 0
    cpt_precision :=
      if (predSetOf pred).length > 0 then
        ((matchedOf gold pred).length : ℚ) / ((predSetOf pred).length : ℚ)
      else 0
    matched_cpts := matchedOf gold pred
    missed_cpts := missedOf gold pred
    hallucinated_cpts := hallucinatedOf gold pred }

/-! ### Identifier extractor (extractMRN, src/src/utils.ts lines 56-74)

The four regex patterns are embedded as deterministic matchers over
character lists.  Greedy quantifiers followed by a literal the quantified
class cannot match (backslash-s-star before a hash or a digit, the optional
colon before whitespace-then-digits) are equivalent to maximal munch, so no
backtracking is modelled.  A match is attempted at every start position,
leftmost first, as String.prototype.match does. -/

/-- Case-insensitive literal: strip the (lower-case) pattern from the head
of the text, returning the remainder on success. -/
def stripCI : List Char → List Char → Option (List Char)
  | [], cs => some cs
  | _ :: _, [] => none
  | p :: ps, c :: cs => if c.toLower = p then stripCI ps cs else none

/-- Shared tail of patterns 2 and 3: an optional colon, then whitespace,
then a non-empty maximal digit run (the capture group). -/
def digitsAfterColonSpaces (r : List Char) : Option (List Char) :=
  let r1 := match r with
    | ':' :: rest => rest
    | _ => r
  let r2 := r1.dropWhile isSpaceChar
  let ds := r2.takeWhile Char.isDigit
  if ds.isEmpty then none else some ds

/-- Pattern 1 at one position: id, whitespace, hash, whitespace, digits
(case-insensitive), capturing the digit run. -/
def matchPat1 (cs : List Char) : Option (List Char) :=
  match stripCI ['i', 'd'] cs with
  | none => none
  | some r1 =>
    match r1.dropWhile isSpaceChar with
    | '#' :: r2 =>
      let ds := (r2.dropWhile isSpaceChar).takeWhile Char.isDigit
      if ds.isEmpty then none else some ds
    | _ => none

/-- Pattern 2 at one position: MRN, optional colon, whitespace, digits. -/
def matchPat2 (cs : List Char) : Option (List Char) :=
  match stripCI ['m', 'r', 'n'] cs with
  | none => none
  | some r1 => digitsAfterColonSpaces r1

/-- Pattern 3 at one position: Medical Record Number-or-hash, optional
colon, whitespace, digits. -/
def matchPat3 (cs : List Char) : Option (List Char) :=
  match stripCI "medical record ".data cs with
  | none => none
  | some r1 =>
    match stripCI "number".data r1 with
    | some r2 => digitsAfterColonSpaces r2
    | none =>
      match r1 with
      | '#' :: r2 => digitsAfterColonSpaces r2
      | _ => none

/-- Leftmost application of a positional matcher. -/
def findPat (m : List Char → Option (List Char)) : List Char → Option (List Char)
  | [] => m []
  | c :: cs =>
    match m (c :: cs) with
    | some r => some r
    | none => findPat m cs

/-- Pattern 4 at one position: a standalone 7-digit run, with word
boundaries on both sides (the character before the position is supplied as
a flag). -/
def matchPat4 (prevWord : Bool) (cs : List Char) : Option (List Char) :=
  if prevWord then none
  else
    let ds := cs.takeWhile Char.isDigit
    if ds.length = 7 then
      match cs.drop 7 with
      | [] => some ds
      | c :: _ => if isWordChar c then none else some ds
    else none

/-- Leftmost application of pattern 4, tracking whether the previous
character is a word character. -/
def findPat4 : Bool → List Char → Option (List Char)
  | _, [] => none
  | prevWord, c :: cs =>
    match matchPat4 prevWord (c :: cs) with
    | some r => some r
    | none => findPat4 (isWordChar c) cs

/-- extractMRN from src/src/utils.ts lines 56-74: the four patterns in
priority order, returning the first capture. -/
def extractMRN (text : String) : Option String :=
  let cs := text.data
  match findPat matchPat1 cs with
  | some ds => some (String.mk ds)
  | none =>
    match findPat matchPat2 cs with
    | some ds => some (String.mk ds)
    | none =>
      match findPat matchPat3 cs with
      | some ds => some (String.mk ds)
      | none =>
        match findPat4 false cs with
        | some ds => some (String.mk ds)
        | none => none

/-! ### Case repository (src/src/context/DataContext.tsx) -/

/-- Case completeness status from src/src/types.ts. -/
inductive CaseStatus where
  | complete
  | incomplete_truth_only
  | incomplete_note_only
deriving Repr, DecidableEq

/-- CaseMetadata from src/src/types.ts; every field is optional. -/
structure CaseMetadata where
  audit_filename_ref : Option String
  audit_source : Option String
  raw_note_file : Option String
deriving Repr, DecidableEq

/-- MedicalCase from src/src/types.ts.  An absent metadata object is
modelled as the all-none metadata record. -/
structure MedicalCase where
  mrn : String
  status : CaseStatus
  specialty : Option String
  ground_truth : Option GroundTruth
  raw_text : Option String
  metadata : CaseMetadata
deriving Repr, DecidableEq

/-- Object literal passed to addCase.  JS object spread only overwrites
keys present in the literal, so key presence is explicit: the outer Option
on specialty is key presence (the note-ingestion literal omits the key),
while ground_truth and raw_text keys are always present but may carry an
undefined value (the inner Option). -/
structure CaseData where
  mrn : String
  status : CaseStatus
  specialty : Option (Option String)
  ground_truth : Option GroundTruth
  raw_text : Option String
  metadata : CaseMetadata
deriving Repr, DecidableEq

/-- Spread merge performed by addCase on an existing case:
every key present in the literal overwrites the existing field. -/
def mergeCase (existing : MedicalCase) (d : CaseData) : MedicalCase :=
  { mrn := d.mrn
    status := d.status
    specialty :=
      match d.specialty with
      | some v => v
      | none => existing.specialty
    ground_truth := d.ground_truth
    raw_text := d.raw_text
    metadata := d.metadata }

/-- A literal stored as a fresh case (keys absent from the literal are
undefined). -/
def toCase (d : CaseData) : MedicalCase :=
  { mrn := d.mrn
    status := d.status
    specialty :=
      match d.specialty with
      | some v => v
      | none => none
    ground_truth := d.ground_truth
    raw_text := d.raw_text
    metadata := d.metadata }

/-- addCase from DataContext.tsx lines 122-143: replace the first case with
the same mrn by the spread merge, or append the new case at the end. -/
def addCase : List MedicalCase → CaseData → List MedicalCase
  | [], d => [toCase d]
  | c :: cs, d => if c.mrn = d.mrn then mergeCase c d :: cs else c :: addCase cs d

/-- Lookup used by both ingestion paths (cases.find). -/
def findCase (s : List MedicalCase) (mrn : String) : Option MedicalCase :=
  s.find? (fun c => decide (c.mrn = mrn))

/-- JS truthiness of a possibly-undefined string: defined and non-empty. -/
def strTruthy : Option String → Bool
  | none => false
  | some s => decide (s ≠ "")

/-- AuditEntry wire shape (src/src/types.ts); the list and note fields can
be missing in extracted data, which ingestion defaults away. -/
structure AuditEntry where
  mrn : String
  audit_filename_ref : String
  primary_icd : String
  secondary_icds : Option (List String)
  cpt_codes : Option (List String)
  auditor_notes : Option String
deriving Repr, DecidableEq

/-- Loop body of ingestAuditEntries (DataContext.tsx lines 170-204) for a
single entry: entries with a falsy mrn are skipped; status is complete iff
the existing case already holds (truthy) raw text; specialty is
first-write-wins; existing raw text and metadata are preserved. -/
def ingestAuditEntry (s : List MedicalCase) (entry : AuditEntry)
    (sourceFile : String) (specialty : String) : List MedicalCase :=
  if entry.mrn = "" then s
  else
    let existingCase := findCase s entry.mrn
    let groundTruth : GroundTruth :=
      { primary_icd := entry.primary_icd
        secondary_icds := entry.secondary_icds.getD []
        cpt_codes := entry.cpt_codes.getD []
        auditor_notes := entry.auditor_notes.getD "" }
    let prevMeta : CaseMetadata :=
      match existingCase with
      | some c => c.metadata
      | none => ⟨none, none, none⟩
    let newCase : CaseData :=
      { mrn := entry.mrn
        status :=
          if strTruthy (existingCase.bind (·.raw_text)) then .complete
          else .incomplete_truth_only
        specialty :=
          some (some (match existingCase.bind (·.specialty) with
            | some sp => if sp = "" then specialty else sp
            | none => specialty))
        ground_truth := some groundTruth
        raw_text := existingCase.bind (·.raw_text)
        metadata :=
          { prevMeta with
            audit_filename_ref := some entry.audit_filename_ref
            audit_source := some sourceFile } }
    addCase s newCase

/-- ingestRawNote from DataContext.tsx lines 206-228: extract the
identifier (failure creates or mutates nothing), then merge the note text
into the case, preserving existing ground truth. -/
def ingestRawNote (s : List MedicalCase) (text fileName : String) :
    List MedicalCase × Bool × Option String :=
  match extractMRN text with
  | none => (s, false, none)
  | some mrn =>
    if mrn = "" then (s, false, none)
    else
      let existingCase := findCase s mrn
      let prevMeta : CaseMetadata :=
        match existingCase with
        | some c => c.metadata
        | none => ⟨none, none, none⟩
      let newCase : CaseData :=
        { mrn := mrn
          status :=
            if (existingCase.bind (·.ground_truth)).isSome then .complete
            else .incomplete_note_only
          specialty := none
          ground_truth := existingCase.bind (·.ground_truth)
          raw_text := some text
          metadata := { prevMeta with raw_note_file := some fileName } }
      (addCase s newCase, true, some mrn)

/-! ### Test-run ledger (DataContext.tsx addTestResult, api/results) -/

/-- TestResult from src/src/types.ts.  The ISO timestamp string is
modelled by the underlying milliseconds-since-epoch count, to which ISO
rendering is order-isomorphic. -/
structure TestRun where
  id : String
  timestamp : ℕ
  mrn : String
  model : String
  prompt_name : String
  prompt_text : String
  primary_match : Bool
  cpt_recall : ℚ
  missed_cpts : List String
  hallucinated_cpts : List String
  pred_primary : String
  pred_cpts : List String
  gold_primary : String
  gold_cpts : List String
  reasoning : String
deriving Repr, DecidableEq

/-- A test result before the ledger assigns id and timestamp
(Omit of TestResult over id and timestamp). -/
structure TestRunInput where
  mrn : String
  model : String
  prompt_name : String
  prompt_text : String
  primary_match : Bool
  cpt_recall : ℚ
  missed_cpts : List String
  hallucinated_cpts : List String
  pred_primary : String
  pred_cpts : List String
  gold_primary : String
  gold_cpts : List String
  reasoning : String
deriving Repr, DecidableEq

/-- addTestResult from DataContext.tsx lines 230-248: assign the freshly
generated id and the current timestamp (both environment inputs, passed as
parameters) and prepend the record. -/
def addTestResult (ledger : List TestRun) (r : TestRunInput)
    (newId : String) (now : ℕ) : List TestRun :=
  { id := newId
    timestamp := now
    mrn := r.mrn
    model := r.model
    prompt_name := r.prompt_name
    prompt_text := r.prompt_text
    primary_match := r.primary_match
    cpt_recall := r.cpt_recall
    missed_cpts := r.missed_cpts
    hallucinated_cpts := r.hallucinated_cpts
    pred_primary := r.pred_primary
    pred_cpts := r.pred_cpts
    gold_primary := r.gold_primary
    gold_cpts := r.gold_cpts
    reasoning := r.reasoning } :: ledger

/-- Effect on the ledger of DELETE /api/results/:id
(src/api/results/[id].ts): remove every record with the given id. -/
def deleteTestResult (ledger : List TestRun) (id : String) : List TestRun :=
  ledger.filter (fun r => decide (r.id ≠ id))

/-- The record addTestResult is called with after one test run
(src PromptTester runTest): score fields from calculateScore, raw
prediction and gold fields copied verbatim. -/
def mkTestRunInput (mrn model promptName promptText : String)
    (gold : GroundTruth) (pred : CodingPrediction) : TestRunInput :=
  { mrn := mrn
    model := model
    prompt_name := promptName
    prompt_text := promptText
    primary_match := (calculateScore gold pred).primary_match
    cpt_recall := (calculateScore gold pred).cpt_recall
    missed_cpts := (calculateScore gold pred).missed_cpts
    hallucinated_cpts := (calculateScore gold pred).hallucinated_cpts
    pred_primary := pred.primary_icd
    pred_cpts := pred.cpt_codes
    gold_primary := gold.primary_icd
    gold_cpts := gold.cpt_codes
    reasoning := pred.reasoning }

/-! ### Aggregation views (src/src/pages/CaseList.tsx) -/

/-- Per-run precision as promptStats derives it from stored counts
(CaseList.tsx lines 67-72). -/
def runCountPrecision (t : TestRun) : ℚ :=
  if t.pred_cpts.length > 0 then
    ((t.pred_cpts.length : ℚ) - (t.hallucinated_cpts.length : ℚ)) / (t.pred_cpts.length : ℚ)
  else 0

/-- Element of keyResults promptResults (CaseList.tsx lines 111-119). -/
structure PromptRunView where
  promptName : String
  primaryMatch : Bool
  predPrimary : String
  cptRecall : ℚ
  missedCpts : List String
  hallucinatedCpts : List String
  timestamp : ℕ
deriving Repr, DecidableEq

/-- Score used to pick the best result per case (CaseList.tsx lines
535-538). -/
def resultScore (r : PromptRunView) : ℚ :=
  (if r.primaryMatch then 1 else 0) + r.cptRecall

/-- The keyResults best-result reduce (CaseList.tsx lines 535-539): a fold
seeded with the first element, keeping the current best unless a strictly
greater score appears. -/
def bestResult : List PromptRunView → Option PromptRunView
  | [] => none
  | r :: rs =>
    some ((r :: rs).foldl (fun best curr =>
      if resultScore curr > resultScore best then curr else best) r)

/-! ### Prompt naming and aggregate statistics -/

/-- SavedPrompt from src/src/types.ts. -/
structure SavedPrompt where
  id : String
  name : String
  text : String
  createdAt : String
deriving Repr, DecidableEq

/-- Name generated by applyImprovedPrompt (src PromptTester lines
209-224): one more than the number of distinct saved-prompt names starting
with Improved. -/
def improvedPromptName (savedPrompts : List SavedPrompt) : String :=
  let uniqueImproved :=
    dedupFirstAux []
      ((savedPrompts.filter
          (fun p => List.isPrefixOf "Improved".data p.name.data)).map (·.name))
  "Improved v" ++ toString (uniqueImproved.length + 1)

/-- Input row shape of calculateAggregateStats. -/
structure AggResult where
  primary_match : Bool
  cpt_recall : ℚ
deriving Repr, DecidableEq

/-- Output shape of calculateAggregateStats. -/
structure AggStats where
  total : ℕ
  primaryAccuracy : ℚ
  avgCptRecall : ℚ
deriving Repr, DecidableEq

/-- calculateAggregateStats from src/src/utils.ts lines 119-137. -/
def calculateAggregateStats (results : List AggResult) : AggStats :=
  if results.length = 0 then
    { total := 0, primaryAccuracy := 0, avgCptRecall := 0 }
  else
    { total := results.length
      primaryAccuracy :=
        ((results.filter (·.primary_match)).length : ℚ) / (results.length : ℚ)
      avgCptRecall :=
        (results.foldl (fun sum r => sum + r.cpt_recall) 0) / (results.length : ℚ) }

/-! ### Helper lemmas -/

theorem mem_dedupFirstAux {a : String} :
    ∀ {l seen : List String}, a ∈ dedupFirstAux seen l ↔ a ∈ l ∧ a ∉ seen
  | [], seen => by simp [dedupFirstAux]
  | x :: xs, seen => by
    simp only [dedupFirstAux]
    by_cases hx : x ∈ seen
    · rw [if_pos hx, mem_dedupFirstAux (l := xs)]
      simp only [List.mem_cons]
      constructor
      · rintro ⟨h1, h2⟩; exact ⟨Or.inr h1, h2⟩
      · rintro ⟨rfl | h1, h2⟩
        · exact absurd hx h2
        · exact ⟨h1, h2⟩
    · rw [if_neg hx]
      simp only [List.mem_cons, mem_dedupFirstAux (l := xs)]
      constructor
      · rintro (rfl | ⟨h1, h2⟩)
        · exact ⟨Or.inl rfl, hx⟩
        · exact ⟨Or.inr h1, fun hs => h2 (Or.inr hs)⟩
      · rintro ⟨rfl | h1, h2⟩
        · exact Or.inl rfl
        · by_cases hax : a = x
          · exact Or.inl hax
          · exact Or.inr ⟨h1, fun h => h.elim hax h2⟩

theorem nodup_dedupFirstAux :
    ∀ (l seen : List String), (dedupFirstAux seen l).Nodup
  | [], _ => List.nodup_nil
  | x :: xs, seen => by
    simp only [dedupFirstAux]
    by_cases hx : x ∈ seen
    · simpa [hx] using nodup_dedupFirstAux xs seen
    · simp only [if_neg hx]
      refine List.nodup_cons.mpr ⟨fun hmem => ?_, nodup_dedupFirstAux xs (x :: seen)⟩
      exact (mem_dedupFirstAux.mp hmem).2 (List.mem_cons_self x seen)

theorem mem_normSet {a : String} {codes : List String} :
    a ∈ normSet codes ↔ a ∈ codes.map normalizeCode := by
  simp [normSet, mem_dedupFirstAux]

theorem nodup_normSet (codes : List String) : (normSet codes).Nodup :=
  nodup_dedupFirstAux _ _

theorem toFinset_normSet (codes : List String) :
    (normSet codes).toFinset = (codes.map normalizeCode).toFinset := by
  ext a
  simp [List.mem_toFinset, mem_normSet]

theorem dedupFirstAux_eq_self :
    ∀ {l seen : List String}, l.Nodup → (∀ a ∈ l, a ∉ seen) → dedupFirstAux seen l = l
  | [], seen, _, _ => rfl
  | x :: xs, seen, hnd, hdis => by
    have hx : x ∉ seen := hdis x (List.mem_cons_self x xs)
    simp only [dedupFirstAux, if_neg hx]
    refine congrArg (x :: ·) (dedupFirstAux_eq_self (List.nodup_cons.mp hnd).2 ?_)
    intro a ha
    simp only [List.mem_cons, not_or]
    exact ⟨fun h => (List.nodup_cons.mp hnd).1 (h ▸ ha), hdis a (List.mem_cons_of_mem _ ha)⟩

theorem matchedOf_toFinset (gold : GroundTruth) (pred : CodingPrediction) :
    (matchedOf gold pred).toFinset = (goldSetOf gold).toFinset ∩ (predSetOf pred).toFinset := by
  ext a
  simp [matchedOf, List.mem_toFinset, List.mem_filter]

theorem missedOf_toFinset (gold : GroundTruth) (pred : CodingPrediction) :
    (missedOf gold pred).toFinset = (goldSetOf gold).toFinset \ (predSetOf pred).toFinset := by
  ext a
  simp [missedOf, List.mem_toFinset, List.mem_filter]

theorem hallucinatedOf_toFinset (gold : GroundTruth) (pred : CodingPrediction) :
    (hallucinatedOf gold pred).toFinset = (predSetOf pred).toFinset \ (goldSetOf gold).toFinset := by
  ext a
  simp [hallucinatedOf, List.mem_toFinset, List.mem_filter]

theorem matchedOf_length (gold : GroundTruth) (pred : CodingPrediction) :
    (matchedOf gold pred).length = ((goldSetOf gold).toFinset ∩ (predSetOf pred).toFinset).card := by
  rw [← matchedOf_toFinset]
  exact (List.toFinset_card_of_nodup ((nodup_normSet _).filter _)).symm

theorem goldSetOf_length (gold : GroundTruth) :
    (goldSetOf gold).length = (goldSetOf gold).toFinset.card :=
  (List.toFinset_card_of_nodup (nodup_normSet _)).symm

theorem predSetOf_length (pred : CodingPrediction) :
    (predSetOf pred).length = (predSetOf pred).toFinset.card :=
  (List.toFinset_card_of_nodup (nodup_normSet _)).symm

theorem ratio_if_bounds {m g : ℕ} (h : m ≤ g) :
    0 ≤ (if g > 0 then (m : ℚ) / (g : ℚ) else 0) ∧
      (if g > 0 then (m : ℚ) / (g : ℚ) else 0) ≤ 1 := by
  by_cases hg : g > 0
  · simp only [if_pos hg]
    refine ⟨by positivity, ?_⟩
    rw [div_le_one (by exact_mod_cast hg)]
    exact_mod_cast h
  · simp [if_neg hg]

theorem matchedOf_length_le_predSetOf (gold : GroundTruth) (pred : CodingPrediction) :
    (matchedOf gold pred).length ≤ (predSetOf pred).length := by
  rw [matchedOf_length, predSetOf_length]
  exact Finset.card_le_card Finset.inter_subset_right

theorem toFinset_dedupFirstAux_nil (l : List String) :
    (dedupFirstAux [] l).toFinset = l.toFinset := by
  ext a
  simp [List.mem_toFinset, mem_dedupFirstAux]

theorem length_dedupFirstAux_nil (l : List String) :
    (dedupFirstAux [] l).length = l.toFinset.card := by
  rw [← toFinset_dedupFirstAux_nil, List.toFinset_card_of_nodup (nodup_dedupFirstAux l [])]

/-- Claim C1: for every GroundTruth and Prediction the score's recall and
precision lie in the closed interval from 0 to 1; recall is the matched
count over the normalized gold-set size when that set is non-empty and
exactly 0 when it is empty, and precision is the matched count over the
normalized predicted-set size when that set is non-empty and exactly 0 when
it is empty — never undefined. -/
theorem claim_C1 (gold : GroundTruth) (pred : CodingPrediction) :
    (0 ≤ (calculateScore gold pred).cpt_recall ∧ (calculateScore gold pred).cpt_recall ≤ 1) ∧
    (0 ≤ (calculateScore gold pred).cpt_precision ∧
      (calculateScore gold pred).cpt_precision ≤ 1) ∧
    (goldSetOf gold ≠ [] →
      (calculateScore gold pred).cpt_recall =
        ((calculateScore gold pred).matched_cpts.length : ℚ) / ((goldSetOf gold).length : ℚ)) ∧
    (goldSetOf gold = [] → (calculateScore gold pred).cpt_recall = 0) ∧
    (predSetOf pred ≠ [] →
      (calculateScore gold pred).cpt_precision =
        ((calculateScore gold pred).matched_cpts.length : ℚ) /
          ((predSetOf pred).length : ℚ)) ∧
    (predSetOf pred = [] → (calculateScore gold pred).cpt_precision = 0) := by
  simp only [calculateScore]
  refine ⟨ratio_if_bounds (List.length_filter_le _ _),
    ratio_if_bounds (matchedOf_length_le_predSetOf gold pred), ?_, ?_, ?_, ?_⟩
  · intro h
    rw [if_pos (List.length_pos.mpr h)]
  · intro h
    rw [if_neg (by simp [h])]
  · intro h
    rw [if_pos (List.length_pos.mpr h)]
  · intro h
    rw [if_neg (by simp [h])]

/-- Witness for C1 at a concrete pair whose gold and predicted sets are
non-empty. -/
theorem claim_C1_witness :
    (goldSetOf ⟨"N20.0", [], ["52356"], ""⟩ ≠ [] ∧
      (calculateScore ⟨"N20.0", [], ["52356"], ""⟩ ⟨"N20.0", [], ["52000"], ""⟩).cpt_recall =
        (((calculateScore ⟨"N20.0", [], ["52356"], ""⟩
            ⟨"N20.0", [], ["52000"], ""⟩).matched_cpts.length : ℚ)) /
          ((goldSetOf ⟨"N20.0", [], ["52356"], ""⟩).length : ℚ)) ∧
    (predSetOf ⟨"N20.0", [], ["52000"], ""⟩ ≠ [] ∧
      (calculateScore ⟨"N20.0", [], ["52356"], ""⟩ ⟨"N20.0", [], ["52000"], ""⟩).cpt_precision =
        (((calculateScore ⟨"N20.0", [], ["52356"], ""⟩
            ⟨"N20.0", [], ["52000"], ""⟩).matched_cpts.length : ℚ)) /
          ((predSetOf ⟨"N20.0", [], ["52000"], ""⟩).length : ℚ)) :=
  ⟨⟨by decide, (claim_C1 ⟨"N20.0", [], ["52356"], ""⟩ ⟨"N20.0", [], ["52000"], ""⟩).2.2.1
      (by decide)⟩,
   ⟨by decide, (claim_C1 ⟨"N20.0", [], ["52356"], ""⟩ ⟨"N20.0", [], ["52000"], ""⟩).2.2.2.2.1
      (by decide)⟩⟩

/-- Claim C2: the three diff lists satisfy the set-algebra identities over
the normalized code sets: matched is the intersection of the gold and
predicted sets, matched with missed recovers the gold set, matched with
hallucinated recovers the predicted set, missed is gold minus predicted and
hallucinated is predicted minus gold. -/
theorem claim_C2 (gold : GroundTruth) (pred : CodingPrediction) :
    (calculateScore gold pred).matched_cpts.toFinset =
        (goldSetOf gold).toFinset ∩ (predSetOf pred).toFinset ∧
    (calculateScore gold pred).matched_cpts.toFinset ∪
        (calculateScore gold pred).missed_cpts.toFinset = (goldSetOf gold).toFinset ∧
    (calculateScore gold pred).matched_cpts.toFinset ∪
        (calculateScore gold pred).hallucinated_cpts.toFinset = (predSetOf pred).toFinset ∧
    (calculateScore gold pred).missed_cpts.toFinset =
        (goldSetOf gold).toFinset \ (predSetOf pred).toFinset ∧
    (calculateScore gold pred).hallucinated_cpts.toFinset =
        (predSetOf pred).toFinset \ (goldSetOf gold).toFinset := by
  simp only [calculateScore]
  refine ⟨matchedOf_toFinset gold pred, ?_, ?_, missedOf_toFinset gold pred,
    hallucinatedOf_toFinset gold pred⟩
  · rw [matchedOf_toFinset, missedOf_toFinset]
    ext a
    simp only [Finset.mem_union, Finset.mem_inter, Finset.mem_sdiff]
    tauto
  · rw [matchedOf_toFinset, hallucinatedOf_toFinset]
    ext a
    simp only [Finset.mem_union, Finset.mem_inter, Finset.mem_sdiff]
    tauto

/-- Claim C9: the applied improved prompt is named Improved v(n) where n is
one greater than the number of distinct existing saved-prompt names
starting with Improved; for a fixed prompt list the name is determined by
that count. -/
theorem claim_C9 (savedPrompts : List SavedPrompt) :
    improvedPromptName savedPrompts =
      "Improved v" ++
        toString
          (((savedPrompts.map (·.name)).filter
              (fun n => List.isPrefixOf "Improved".data n.data)).toFinset.card + 1) ∧
    improvedPromptName
        [⟨"1", "Improved v1", "a", "t1"⟩, ⟨"2", "Improved v1", "b", "t2"⟩,
         ⟨"3", "Baseline", "c", "t3"⟩] = "Improved v2" := by
  constructor
  · rw [improvedPromptName, length_dedupFirstAux_nil]
    have hmap :
        (savedPrompts.filter
            (fun p => List.isPrefixOf "Improved".data p.name.data)).map (·.name) =
          (savedPrompts.map (·.name)).filter
            (fun n => List.isPrefixOf "Improved".data n.data) := by
      induction savedPrompts with
      | nil => rfl
      | cons p ps ih =>
        by_cases hp : List.isPrefixOf "Improved".data p.name.data
        · simp [List.filter_cons, hp, ih]
        · simp [List.filter_cons, hp, ih]
    rw [hmap]
  · decide

theorem foldl_add_cpt_recall (l : List AggResult) (init : ℚ) :
    l.foldl (fun sum r => sum + r.cpt_recall) init = init + (l.map (·.cpt_recall)).sum := by
  induction l generalizing init with
  | nil => simp
  | cons r rs ih =>
    simp only [List.foldl_cons, List.map_cons, List.sum_cons, ih]
    ring

/-- Claim C10: calculateAggregateStats is total: the empty list yields
zeros with no division, and a non-empty list of length n yields total n,
primaryAccuracy the match count over n and avgCptRecall the recall sum over
n, with the denominator non-zero. -/
theorem claim_C10 (results : List AggResult) :
    (results = [] → calculateAggregateStats results = ⟨0, 0, 0⟩) ∧
    (results ≠ [] →
      (calculateAggregateStats results).total = results.length ∧
      (calculateAggregateStats results).primaryAccuracy =
        ((results.filter (·.primary_match)).length : ℚ) / (results.length : ℚ) ∧
      (calculateAggregateStats results).avgCptRecall =
        (results.map (·.cpt_recall)).sum / (results.length : ℚ) ∧
      ((results.length : ℚ) ≠ 0)) := by
  constructor
  · rintro rfl
    rfl
  · intro h
    have hlen : results.length ≠ 0 := by
      simpa [List.length_eq_zero] using h
    simp only [calculateAggregateStats, if_neg hlen, foldl_add_cpt_recall, zero_add]
    exact ⟨trivial, trivial, trivial, by exact_mod_cast hlen⟩

/-- Witness for C10 on both the empty and a non-empty list. -/
theorem claim_C10_witness :
    (calculateAggregateStats [] = ⟨0, 0, 0⟩) ∧
    ((calculateAggregateStats [⟨true, 1/2⟩]).total = 1 ∧
      (calculateAggregateStats [⟨true, 1/2⟩]).primaryAccuracy =
        ((([⟨true, 1/2⟩] : List AggResult).filter (·.primary_match)).length : ℚ) /
          (([⟨true, 1/2⟩] : List AggResult).length : ℚ) ∧
      (calculateAggregateStats [⟨true, 1/2⟩]).avgCptRecall =
        (([⟨true, 1/2⟩] : List AggResult).map (·.cpt_recall)).sum /
          (([⟨true, 1/2⟩] : List AggResult).length : ℚ) ∧
      ((([⟨true, 1/2⟩] : List AggResult).length : ℚ) ≠ 0)) :=
  ⟨(claim_C10 []).1 rfl, (claim_C10 [⟨true, 1/2⟩]).2 (by simp)⟩

/-- Claim C3: scoring compares codes after lower-casing and trimming:
the primary codes A10.1-with-trailing-space and a10.1-with-leading-space
match; the procedure metrics depend only on the normalized primary strings
and the normalized code sets (duplicates collapse, order irrelevant); and a
code with a modifier suffix is a distinct set element, never a partial
match. -/
theorem claim_C3 :
    ((calculateScore ⟨"A10.1 ", [], [], ""⟩ ⟨" a10.1", [], [], ""⟩).primary_match = true) ∧
    (∀ g1 g2 : GroundTruth, ∀ p1 p2 : CodingPrediction,
      normalizeCode g1.primary_icd = normalizeCode g2.primary_icd →
      normalizeCode p1.primary_icd = normalizeCode p2.primary_icd →
      (g1.cpt_codes.map normalizeCode).toFinset = (g2.cpt_codes.map normalizeCode).toFinset →
      (p1.cpt_codes.map normalizeCode).toFinset = (p2.cpt_codes.map normalizeCode).toFinset →
      (calculateScore g1 p1).primary_match = (calculateScore g2 p2).primary_match ∧
      (calculateScore g1 p1).cpt_recall = (calculateScore g2 p2).cpt_recall ∧
      (calculateScore g1 p1).cpt_precision = (calculateScore g2 p2).cpt_precision) ∧
    ((calculateScore ⟨"x", [], ["99214"], ""⟩ ⟨"x", [], ["99214-25"], ""⟩).matched_cpts = [] ∧
      (calculateScore ⟨"x", [], ["99214"], ""⟩ ⟨"x", [], ["99214-25"], ""⟩).cpt_recall = 0) := by
  refine ⟨by decide, ?_, by decide, ?_⟩
  · intro g1 g2 p1 p2 hgp hpp hgc hpc
    have hgF : (goldSetOf g1).toFinset = (goldSetOf g2).toFinset := by
      simp only [goldSetOf, toFinset_normSet, hgc]
    have hpF : (predSetOf p1).toFinset = (predSetOf p2).toFinset := by
      simp only [predSetOf, toFinset_normSet, hpc]
    have hglen : (goldSetOf g1).length = (goldSetOf g2).length := by
      rw [goldSetOf_length, goldSetOf_length, hgF]
    have hplen : (predSetOf p1).length = (predSetOf p2).length := by
      rw [predSetOf_length, predSetOf_length, hpF]
    have hm : (matchedOf g1 p1).length = (matchedOf g2 p2).length := by
      rw [matchedOf_length, matchedOf_length, hgF, hpF]
    refine ⟨?_, ?_, ?_⟩
    · simp only [calculateScore, hgp, hpp]
    · simp only [calculateScore, hm, hglen]
    · simp only [calculateScore, hm, hplen]
  · simp +decide [calculateScore, matchedOf, goldSetOf, predSetOf, normSet, dedupFirstAux,
      normalizeCode]

/-- Witness for C3 at concrete inputs whose code lists differ only by case,
whitespace, duplication and order. -/
theorem claim_C3_witness :
    (normalizeCode (GroundTruth.primary_icd ⟨"A10.1 ", [], ["99214", " 99214"], ""⟩) =
        normalizeCode (GroundTruth.primary_icd ⟨" a10.1", [], ["99214"], ""⟩)) ∧
    ((["99214", " 99214"].map normalizeCode).toFinset =
        (["99214"].map normalizeCode).toFinset) ∧
    ((calculateScore ⟨"A10.1 ", [], ["99214", " 99214"], ""⟩ ⟨"b", [], ["99214"], ""⟩).cpt_recall =
      (calculateScore ⟨" a10.1", [], ["99214"], ""⟩ ⟨"b", [], ["99214"], ""⟩).cpt_recall) :=
  ⟨by decide, by decide,
    (claim_C3.2.1 ⟨"A10.1 ", [], ["99214", " 99214"], ""⟩ ⟨" a10.1", [], ["99214"], ""⟩
      ⟨"b", [], ["99214"], ""⟩ ⟨"b", [], ["99214"], ""⟩
      (by decide) (by decide) (by decide) (by decide)).2.1⟩

/-- Count-based per-run precision agrees with the scoring engine exactly
when the raw predicted list has no duplicates after normalization. -/
theorem claim_C7_amended (mrn model pn pt newId : String) (now : ℕ)
    (gold : GroundTruth) (pred : CodingPrediction)
    (hnodup : (pred.cpt_codes.map normalizeCode).Nodup) :
    (addTestResult [] (mkTestRunInput mrn model pn pt gold pred) newId now).map
        runCountPrecision = [(calculateScore gold pred).cpt_precision] := by
  have hset : predSetOf pred = pred.cpt_codes.map normalizeCode := by
    rw [predSetOf, normSet]
    exact dedupFirstAux_eq_self hnodup (by simp)
  have hlen : (predSetOf pred).length = pred.cpt_codes.length := by
    rw [hset, List.length_map]
  have hhalLen : (hallucinatedOf gold pred).length =
      ((predSetOf pred).toFinset \ (goldSetOf gold).toFinset).card := by
    rw [← hallucinatedOf_toFinset]
    exact (List.toFinset_card_of_nodup ((nodup_normSet _).filter _)).symm
  have hsum : (hallucinatedOf gold pred).length + (matchedOf gold pred).length =
      (predSetOf pred).length := by
    rw [hhalLen, matchedOf_length, predSetOf_length, Finset.inter_comm]
    rw [Nat.add_comm]
    exact Finset.card_inter_add_card_sdiff _ _
  simp only [addTestResult, mkTestRunInput, List.map_cons, List.map_nil]
  simp only [runCountPrecision, calculateScore]
  by_cases hp : pred.cpt_codes.length > 0
  · rw [if_pos hp, if_pos (by omega : (predSetOf pred).length > 0)]
    have hq : ((hallucinatedOf gold pred).length : ℚ) + ((matchedOf gold pred).length : ℚ) =
        ((predSetOf pred).length : ℚ) := by exact_mod_cast hsum
    rw [hlen] at hq
    have hnum : ((pred.cpt_codes.length : ℚ) - ((hallucinatedOf gold pred).length : ℚ)) =
        ((matchedOf gold pred).length : ℚ) := by linarith
    rw [hnum, hlen]
  · rw [if_neg hp, if_neg (by omega : ¬ (predSetOf pred).length > 0)]

/-- Counterexample to C7 as stated: with duplicate predicted codes the
count-derived precision (one half) differs from the engine precision
(zero). -/
theorem claim_C7_counterexample :
    (addTestResult []
        (mkTestRunInput "7654321" "gemini-1.5-pro" "P1" "prompt text"
          ⟨"x", [], ["a"], ""⟩ ⟨"x", [], ["b", "b"], ""⟩) "run-1" 0).map
        runCountPrecision = [(1 : ℚ) / 2] ∧
    (calculateScore ⟨"x", [], ["a"], ""⟩ ⟨"x", [], ["b", "b"], ""⟩).cpt_precision = 0 ∧
    ((1 : ℚ) / 2) ≠ 0 := by
  refine ⟨?_, ?_, by norm_num⟩
  · simp +decide [addTestResult, mkTestRunInput, runCountPrecision, calculateScore,
      hallucinatedOf, matchedOf, predSetOf, goldSetOf, normSet, dedupFirstAux, normalizeCode]
    norm_num
  · simp +decide [calculateScore, matchedOf, predSetOf, goldSetOf, normSet, dedupFirstAux,
      normalizeCode]

/-- Witness for the amended C7 with a duplicate-free predicted list. -/
theorem claim_C7_witness :
    ((["52000"].map normalizeCode).Nodup) ∧
    (addTestResult []
        (mkTestRunInput "7654321" "gemini-1.5-pro" "P1" "prompt text"
          ⟨"N20.0", [], ["52356"], ""⟩ ⟨"N20.0", [], ["52000"], ""⟩) "run-1" 5).map
        runCountPrecision =
      [(calculateScore ⟨"N20.0", [], ["52356"], ""⟩ ⟨"N20.0", [], ["52000"], ""⟩).cpt_precision] :=
  ⟨by decide,
    claim_C7_amended "7654321" "gemini-1.5-pro" "P1" "prompt text" "run-1" 5
      ⟨"N20.0", [], ["52356"], ""⟩ ⟨"N20.0", [], ["52000"], ""⟩ (by decide)⟩

theorem foldl_addTestResult_timestamps (inputs : List (TestRunInput × String × ℕ))
    (init : List TestRun) :
    ((inputs.foldl (fun led x => addTestResult led x.1 x.2.1 x.2.2) init).map (·.timestamp)) =
      (inputs.map (fun x => x.2.2)).reverse ++ init.map (·.timestamp) := by
  induction inputs generalizing init with
  | nil => simp
  | cons a l ih =>
    rw [List.foldl_cons, ih]
    simp [addTestResult, List.append_assoc]

theorem length_filter_id_split (ledger : List TestRun) (id : String) :
    (ledger.filter (fun t => decide (t.id ≠ id))).length +
      (ledger.filter (fun t => decide (t.id = id))).length = ledger.length := by
  induction ledger with
  | nil => rfl
  | cons t ts ih =>
    simp only [List.filter_cons]
    by_cases h : t.id = id
    · rw [if_neg (by simp [h]), if_pos (by simp [h])]
      simp only [List.length_cons]
      omega
    · rw [if_pos (by simp [h]), if_neg (by simp [h])]
      simp only [List.length_cons]
      omega

/-- Claim C6: appending to the ledger assigns the supplied fresh id and
current timestamp and prepends, leaving the old history as the untouched
tail; a sequence of appends under a strictly advancing clock lists strictly
newest-first; deleting an id held by exactly one run shortens the list by
exactly one, and what remains is a subsequence of unmodified records. -/
theorem claim_C6 :
    (∀ (ledger : List TestRun) (r : TestRunInput) (newId : String) (now : ℕ),
      ∃ t : TestRun, t.id = newId ∧ t.timestamp = now ∧
        addTestResult ledger r newId now = t :: ledger) ∧
    (∀ inputs : List (TestRunInput × String × ℕ),
      (inputs.map (fun x => x.2.2)).Chain' (· < ·) →
      ((inputs.foldl (fun led x => addTestResult led x.1 x.2.1 x.2.2) []).map
          (·.timestamp)).Pairwise (· > ·)) ∧
    (∀ (ledger : List TestRun) (id : String),
      ((ledger.filter (fun t => decide (t.id = id))).length = 1 →
        (deleteTestResult ledger id).length = ledger.length - 1) ∧
      List.Sublist (deleteTestResult ledger id) ledger ∧
      (∀ t ∈ deleteTestResult ledger id, t ∈ ledger)) := by
  refine ⟨?_, ?_, ?_⟩
  · intro ledger r newId now
    exact ⟨{ id := newId, timestamp := now, mrn := r.mrn, model := r.model
             prompt_name := r.prompt_name, prompt_text := r.prompt_text
             primary_match := r.primary_match, cpt_recall := r.cpt_recall
             missed_cpts := r.missed_cpts, hallucinated_cpts := r.hallucinated_cpts
             pred_primary := r.pred_primary, pred_cpts := r.pred_cpts
             gold_primary := r.gold_primary, gold_cpts := r.gold_cpts
             reasoning := r.reasoning }, rfl, rfl, rfl⟩
  · intro inputs h
    rw [foldl_addTestResult_timestamps]
    simp only [List.map_nil, List.append_nil]
    rw [List.pairwise_reverse]
    exact (List.chain'_iff_pairwise.mp h).imp (fun hab => hab)
  · intro ledger id
    refine ⟨?_, List.filter_sublist _, fun t ht => List.mem_of_mem_filter ht⟩
    intro h1
    have h2 := length_filter_id_split ledger id
    rw [h1] at h2
    simp only [deleteTestResult]
    omega

/-- Witness for C6: two appends under an advancing clock, then a delete of
the older run. -/
theorem claim_C6_witness :
    (([((⟨"m1", "mod", "P", "pt", true, 1, [], [], "pp", [], "gp", [], ""⟩ : TestRunInput),
        "a", 1),
       ((⟨"m2", "mod", "P", "pt", false, 0, [], [], "pp", [], "gp", [], ""⟩ : TestRunInput),
        "b", 2)].map (fun x => x.2.2)).Chain' (· < ·)) ∧
    (([((⟨"m1", "mod", "P", "pt", true, 1, [], [], "pp", [], "gp", [], ""⟩ : TestRunInput),
        "a", 1),
       ((⟨"m2", "mod", "P", "pt", false, 0, [], [], "pp", [], "gp", [], ""⟩ : TestRunInput),
        "b", 2)].foldl (fun led x => addTestResult led x.1 x.2.1 x.2.2) []).map
        (·.timestamp)).Pairwise (· > ·) ∧
    ((([(⟨"a", 1, "m1", "mod", "P", "pt", true, 1, [], [], "pp", [], "gp", [], ""⟩ : TestRun),
        (⟨"b", 2, "m2", "mod", "P", "pt", false, 0, [], [], "pp", [], "gp", [], ""⟩ :
          TestRun)].filter (fun t => decide (t.id = "a"))).length = 1) ∧
      (deleteTestResult
          [(⟨"a", 1, "m1", "mod", "P", "pt", true, 1, [], [], "pp", [], "gp", [], ""⟩ : TestRun),
           (⟨"b", 2, "m2", "mod", "P", "pt", false, 0, [], [], "pp", [], "gp", [], ""⟩ :
             TestRun)] "a").length =
        [(⟨"a", 1, "m1", "mod", "P", "pt", true, 1, [], [], "pp", [], "gp", [], ""⟩ : TestRun),
         (⟨"b", 2, "m2", "mod", "P", "pt", false, 0, [], [], "pp", [], "gp", [], ""⟩ :
           TestRun)].length - 1) :=
  ⟨by simp [List.chain'_cons], claim_C6.2.1 _ (by simp [List.chain'_cons]),
    by decide,
    (claim_C6.2.2
        [⟨"a", 1, "m1", "mod", "P", "pt", true, 1, [], [], "pp", [], "gp", [], ""⟩,
         ⟨"b", 2, "m2", "mod", "P", "pt", false, 0, [], [], "pp", [], "gp", [], ""⟩]
        "a").1 (by decide)⟩

theorem resultScore_le_foldl (rs : List PromptRunView) (b : PromptRunView) :
    resultScore b ≤
      resultScore (rs.foldl (fun best curr =>
        if resultScore curr > resultScore best then curr else best) b) := by
  induction rs generalizing b with
  | nil => exact le_refl _
  | cons a rs ih =>
    simp only [List.foldl_cons]
    by_cases hab : resultScore a > resultScore b
    · rw [if_pos hab]
      exact le_of_lt (lt_of_lt_of_le hab (ih a))
    · rw [if_neg hab]
      exact ih b

theorem foldl_best_split (rs : List PromptRunView) (b : PromptRunView) :
    ∃ l1 l2,
      b :: rs =
        l1 ++ (rs.foldl (fun best curr =>
          if resultScore curr > resultScore best then curr else best) b) :: l2 ∧
      (∀ x ∈ l1, resultScore x <
        resultScore (rs.foldl (fun best curr =>
          if resultScore curr > resultScore best then curr else best) b)) ∧
      (∀ x ∈ l2, resultScore x ≤
        resultScore (rs.foldl (fun best curr =>
          if resultScore curr > resultScore best then curr else best) b)) := by
  induction rs generalizing b with
  | nil => exact ⟨[], [], rfl, by simp, by simp⟩
  | cons a rs ih =>
    simp only [List.foldl_cons]
    by_cases hab : resultScore a > resultScore b
    · rw [if_pos hab]
      obtain ⟨l1, l2, heq, hl1, hl2⟩ := ih a
      refine ⟨b :: l1, l2, by rw [List.cons_append, ← heq], ?_, hl2⟩
      intro x hx
      rcases List.mem_cons.mp hx with rfl | hx
      · exact lt_of_lt_of_le hab (resultScore_le_foldl rs a)
      · exact hl1 x hx
    · rw [if_neg hab]
      obtain ⟨l1, l2, heq, hl1, hl2⟩ := ih b
      cases l1 with
      | nil =>
        simp only [List.nil_append] at heq
        obtain ⟨hy, hrest⟩ := List.cons_eq_cons.mp heq
        refine ⟨[], a :: l2, ?_, by simp, ?_⟩
        · simp only [List.nil_append]
          rw [← hy]
          exact congrArg (fun t => b :: a :: t) hrest
        · intro x hx
          rcases List.mem_cons.mp hx with rfl | hx
          · rw [← hy]
            exact le_of_not_lt hab
          · exact hl2 x hx
      | cons c l1' =>
        rw [List.cons_append] at heq
        obtain ⟨hc, hrest⟩ := List.cons_eq_cons.mp heq
        refine ⟨b :: a :: l1', l2, ?_, ?_, hl2⟩
        · simp only [List.cons_append]
          exact congrArg (fun t => b :: a :: t) hrest
        · intro x hx
          rcases List.mem_cons.mp hx with rfl | hx
          · exact hc ▸ hl1 c (List.mem_cons_self c l1')
          · rcases List.mem_cons.mp hx with rfl | hx
            · refine lt_of_le_of_lt (le_of_not_lt hab) ?_
              exact hc ▸ hl1 c (List.mem_cons_self c l1')
            · exact hl1 x (List.mem_cons_of_mem c hx)

/-- Claim C8: for every non-empty run list the by-case reduce returns the
first element attaining the maximal primary-match-plus-recall score
(earlier elements score strictly less, later ones at most as much), and on
the concrete pair from the spec the run with primary match and recall 0.2
(score 1.2) beats the one with recall 0.9. -/
theorem claim_C8 :
    (∀ l : List PromptRunView, l ≠ [] →
      ∃ b l1 l2, bestResult l = some b ∧ l = l1 ++ b :: l2 ∧
        (∀ x ∈ l1, resultScore x < resultScore b) ∧
        (∀ x ∈ l2, resultScore x ≤ resultScore b)) ∧
    (bestResult
        [⟨"P1", false, "R10", 9/10, [], [], 0⟩, ⟨"P2", true, "N20", 2/10, [], [], 1⟩] =
      some ⟨"P2", true, "N20", 2/10, [], [], 1⟩) := by
  constructor
  · intro l hl
    match l with
    | r :: rs =>
      have hrr : ((r :: rs).foldl (fun best curr =>
          if resultScore curr > resultScore best then curr else best) r) =
          (rs.foldl (fun best curr =>
            if resultScore curr > resultScore best then curr else best) r) := by
        simp only [List.foldl_cons, if_neg (lt_irrefl (resultScore r))]
      obtain ⟨l1, l2, heq, h1, h2⟩ := foldl_best_split rs r
      exact ⟨_, l1, l2, by rw [bestResult, hrr], heq, h1, h2⟩
  · norm_num [bestResult, resultScore]

/-- Witness for C8 at the spec's concrete two-run case. -/
theorem claim_C8_witness :
    (([⟨"P1", false, "R10", 9/10, [], [], 0⟩,
        ⟨"P2", true, "N20", 2/10, [], [], 1⟩] : List PromptRunView) ≠ []) ∧
    (∃ b l1 l2,
      bestResult
          [⟨"P1", false, "R10", 9/10, [], [], 0⟩, ⟨"P2", true, "N20", 2/10, [], [], 1⟩] =
        some b ∧
      ([⟨"P1", false, "R10", 9/10, [], [], 0⟩,
        ⟨"P2", true, "N20", 2/10, [], [], 1⟩] : List PromptRunView) = l1 ++ b :: l2 ∧
      (∀ x ∈ l1, resultScore x < resultScore b) ∧
      (∀ x ∈ l2, resultScore x ≤ resultScore b)) :=
  ⟨by simp, claim_C8.1 _ (by simp)⟩

theorem findCase_eq_none {s : List MedicalCase} {mrn : String}
    (h : ∀ c ∈ s, c.mrn ≠ mrn) : findCase s mrn = none := by
  rw [findCase, List.find?_eq_none]
  intro c hc
  simpa using h c hc

theorem addCase_of_not_found :
    ∀ {s : List MedicalCase} {d : CaseData},
      (∀ c ∈ s, c.mrn ≠ d.mrn) → addCase s d = s ++ [toCase d]
  | [], d, _ => rfl
  | c :: cs, d, h => by
    simp only [addCase]
    rw [if_neg (h c (List.mem_cons_self c cs)),
      addCase_of_not_found (fun x hx => h x (List.mem_cons_of_mem c hx))]
    rfl

theorem findCase_append :
    ∀ {s : List MedicalCase} {c : MedicalCase} {mrn : String},
      (∀ x ∈ s, x.mrn ≠ mrn) → c.mrn = mrn → findCase (s ++ [c]) mrn = some c
  | [], c, mrn, _, hc => by
    show List.find? _ (c :: []) = some c
    rw [List.find?_cons_of_pos _ (by simp [hc])]
  | x :: xs, c, mrn, h, hc => by
    show List.find? _ (x :: (xs ++ [c])) = some c
    rw [List.find?_cons_of_neg _ (by simp [h x (List.mem_cons_self x xs)])]
    exact findCase_append (fun y hy => h y (List.mem_cons_of_mem x hy)) hc

theorem addCase_append :
    ∀ {s : List MedicalCase} {c : MedicalCase} {d : CaseData},
      (∀ x ∈ s, x.mrn ≠ d.mrn) → c.mrn = d.mrn →
        addCase (s ++ [c]) d = s ++ [mergeCase c d]
  | [], c, d, _, hc => by
    show addCase (c :: []) d = [mergeCase c d]
    simp only [addCase]
    rw [if_pos hc]
  | x :: xs, c, d, h, hc => by
    show addCase (x :: (xs ++ [c])) d = x :: (xs ++ [mergeCase c d])
    simp only [addCase]
    rw [if_neg (h x (List.mem_cons_self x xs)),
      addCase_append (fun y hy => h y (List.mem_cons_of_mem x hy)) hc]

/-- Claim C5: starting from a repository without the key, ingesting a gold
entry and then a note extracting the same identifier gives the same end
state as ingesting them in the opposite order: exactly one case for that
key, with status complete, that ground truth and that raw text. -/
theorem claim_C5 (s : List MedicalCase) (entry : AuditEntry)
    (text fileName sourceFile specialty : String)
    (hnew : ∀ c ∈ s, c.mrn ≠ entry.mrn)
    (hmrn : entry.mrn ≠ "")
    (hext : extractMRN text = some entry.mrn) :
    (ingestRawNote (ingestAuditEntry s entry sourceFile specialty) text fileName).1 =
      ingestAuditEntry (ingestRawNote s text fileName).1 entry sourceFile specialty ∧
    (((ingestRawNote (ingestAuditEntry s entry sourceFile specialty) text fileName).1.filter
        (fun c => decide (c.mrn = entry.mrn))).length = 1) ∧
    (∀ c ∈ (ingestRawNote (ingestAuditEntry s entry sourceFile specialty) text fileName).1,
      c.mrn = entry.mrn →
        c.status = .complete ∧
        c.ground_truth = some
          { primary_icd := entry.primary_icd
            secondary_icds := entry.secondary_icds.getD []
            cpt_codes := entry.cpt_codes.getD []
            auditor_notes := entry.auditor_notes.getD "" } ∧
        c.raw_text = some text) := by
  have htext : text ≠ "" := by
    intro he
    rw [he] at hext
    have h0 : extractMRN "" = none := rfl
    rw [h0] at hext
    cases hext
  have hfind : findCase s entry.mrn = none := findCase_eq_none hnew
  have hG : ingestAuditEntry s entry sourceFile specialty =
      s ++ [toCase
        { mrn := entry.mrn
          status := .incomplete_truth_only
          specialty := some (some specialty)
          ground_truth := some
            { primary_icd := entry.primary_icd
              secondary_icds := entry.secondary_icds.getD []
              cpt_codes := entry.cpt_codes.getD []
              auditor_notes := entry.auditor_notes.getD "" }
          raw_text := none
          metadata := ⟨some entry.audit_filename_ref, some sourceFile, none⟩ }] := by
    unfold ingestAuditEntry
    rw [if_neg hmrn]
    simp only [hfind, Option.none_bind, strTruthy]
    exact addCase_of_not_found hnew
  have hfind2 : findCase (s ++ [toCase
        { mrn := entry.mrn
          status := .incomplete_truth_only
          specialty := some (some specialty)
          ground_truth := some
            { primary_icd := entry.primary_icd
              secondary_icds := entry.secondary_icds.getD []
              cpt_codes := entry.cpt_codes.getD []
              auditor_notes := entry.auditor_notes.getD "" }
          raw_text := none
          metadata := ⟨some entry.audit_filename_ref, some sourceFile, none⟩ }]) entry.mrn =
      some (toCase
        { mrn := entry.mrn
          status := .incomplete_truth_only
          specialty := some (some specialty)
          ground_truth := some
            { primary_icd := entry.primary_icd
              secondary_icds := entry.secondary_icds.getD []
              cpt_codes := entry.cpt_codes.getD []
              auditor_notes := entry.auditor_notes.getD "" }
          raw_text := none
          metadata := ⟨some entry.audit_filename_ref, some sourceFile, none⟩ }) :=
    findCase_append hnew rfl
  have hL : (ingestRawNote (ingestAuditEntry s entry sourceFile specialty) text fileName).1 =
      s ++ [{ mrn := entry.mrn
              status := .complete
              specialty := some specialty
              ground_truth := some
                { primary_icd := entry.primary_icd
                  secondary_icds := entry.secondary_icds.getD []
                  cpt_codes := entry.cpt_codes.getD []
                  auditor_notes := entry.auditor_notes.getD "" }
              raw_text := some text
              metadata :=
                ⟨some entry.audit_filename_ref, some sourceFile, some fileName⟩ }] := by
    rw [hG]
    unfold ingestRawNote
    simp only [hext, if_neg hmrn, hfind2, Option.some_bind]
    rw [addCase_append hnew rfl]
    rfl
  have hN : (ingestRawNote s text fileName).1 =
      s ++ [toCase
        { mrn := entry.mrn
          status := .incomplete_note_only
          specialty := none
          ground_truth := none
          raw_text := some text
          metadata := ⟨none, none, some fileName⟩ }] := by
    unfold ingestRawNote
    simp only [hext, if_neg hmrn, hfind, Option.none_bind, Option.isSome_none]
    rw [addCase_of_not_found hnew]
    rfl
  have hfind3 : findCase (s ++ [toCase
        { mrn := entry.mrn
          status := .incomplete_note_only
          specialty := none
          ground_truth := none
          raw_text := some text
          metadata := ⟨none, none, some fileName⟩ }]) entry.mrn =
      some (toCase
        { mrn := entry.mrn
          status := .incomplete_note_only
          specialty := none
          ground_truth := none
          raw_text := some text
          metadata := ⟨none, none, some fileName⟩ }) :=
    findCase_append hnew rfl
  have hR : ingestAuditEntry (ingestRawNote s text fileName).1 entry sourceFile specialty =
      s ++ [{ mrn := entry.mrn
              status := .complete
              specialty := some specialty
              ground_truth := some
                { primary_icd := entry.primary_icd
                  secondary_icds := entry.secondary_icds.getD []
                  cpt_codes := entry.cpt_codes.getD []
                  auditor_notes := entry.auditor_notes.getD "" }
              raw_text := some text
              metadata :=
                ⟨some entry.audit_filename_ref, some sourceFile, some fileName⟩ }] := by
    rw [hN]
    unfold ingestAuditEntry
    rw [if_neg hmrn]
    simp only [hfind3, Option.some_bind, strTruthy]
    rw [if_pos (by simp [toCase, htext])]
    rw [addCase_append hnew rfl]
    rfl
  refine ⟨by rw [hL, hR], ?_, ?_⟩
  · rw [hL, List.filter_append]
    have hs : s.filter (fun c => decide (c.mrn = entry.mrn)) = [] := by
      rw [List.filter_eq_nil_iff]
      intro c hc
      simp [hnew c hc]
    rw [hs]
    simp
  · intro c hc hcm
    rw [hL] at hc
    rcases List.mem_append.mp hc with hc | hc
    · exact absurd hcm (hnew c hc)
    · rcases List.mem_singleton.mp hc with rfl
      exact ⟨rfl, rfl, rfl⟩

/-- Witness for C5 on an empty repository, key 123, a note reading
MRN: 123. -/
theorem claim_C5_witness :
    (extractMRN "MRN: 123" =
      some (AuditEntry.mrn ⟨"123", "audit.pdf", "N20.0", some [], some ["52356"], some ""⟩)) ∧
    (((ingestRawNote
          (ingestAuditEntry []
            ⟨"123", "audit.pdf", "N20.0", some [], some ["52356"], some ""⟩
            "audits.pdf" "Urology") "MRN: 123" "note.txt").1.filter
        (fun c => decide (c.mrn = "123"))).length = 1) :=
  ⟨by decide,
    (claim_C5 [] ⟨"123", "audit.pdf", "N20.0", some [], some ["52356"], some ""⟩
      "MRN: 123" "note.txt" "audits.pdf" "Urology" (by simp) (by decide) (by decide)).2.1⟩

/-- Amended C4: the extractor returns the capture of the first pattern in
priority order that matches, each pattern matching at its leftmost
position; a text whose leftmost pattern-1 occurrence captures 42 returns 42
even in the presence of a bare 7-digit number, and a text matching no
pattern returns none. -/
theorem claim_C4_amended (t : String) :
    (∀ ds : List Char, findPat matchPat1 t.data = some ds →
      extractMRN t = some (String.mk ds)) ∧
    (findPat matchPat1 t.data = none →
      ∀ ds, findPat matchPat2 t.data = some ds → extractMRN t = some (String.mk ds)) ∧
    (findPat matchPat1 t.data = none → findPat matchPat2 t.data = none →
      ∀ ds, findPat matchPat3 t.data = some ds → extractMRN t = some (String.mk ds)) ∧
    (findPat matchPat1 t.data = none → findPat matchPat2 t.data = none →
      findPat matchPat3 t.data = none →
      ∀ ds, findPat4 false t.data = some ds → extractMRN t = some (String.mk ds)) ∧
    (findPat matchPat1 t.data = none → findPat matchPat2 t.data = none →
      findPat matchPat3 t.data = none → findPat4 false t.data = none →
      extractMRN t = none) ∧
    (extractMRN "id #42 and 1234567" = some "42") := by
  refine ⟨?_, ?_, ?_, ?_, ?_, by decide⟩
  · intro ds h
    simp only [extractMRN, h]
  · intro h1 ds h
    simp only [extractMRN, h1, h]
  · intro h1 h2 ds h
    simp only [extractMRN, h1, h2, h]
  · intro h1 h2 h3 ds h
    simp only [extractMRN, h1, h2, h3, h]
  · intro h1 h2 h3 h4
    simp only [extractMRN, h1, h2, h3, h4]

/-- Counterexample to C4 as stated: this text contains both the literal
id-hash-42 and a bare 7-digit number, yet the extractor returns the capture
of the earlier pattern-1 occurrence, 7, not 42. -/
theorem claim_C4_counterexample :
    extractMRN "id #7 and id #42 and 1234567" = some "7" ∧
    (some "7" : Option String) ≠ some "42" :=
  ⟨by decide, by decide⟩

/-- Witness for the amended C4: the leftmost pattern-1 capture wins over
the 7-digit fallback. -/
theorem claim_C4_witness :
    (findPat matchPat1 "id #42 and 1234567".data = some ['4', '2']) ∧
    (extractMRN "id #42 and 1234567" = some (String.mk ['4', '2'])) :=
  ⟨by decide, (claim_C4_amended "id #42 and 1234567").1 ['4', '2'] (by decide)⟩

end PromptTester
